import Mathlib

set_option autoImplicit false

/-!
Verification of the blackbox flight-log decoder core: a shallow embedding of
the integer codec layer (`src/parser/decode`) and the header state machine
(`src/parser/headers`), with theorems checking the natural-language
specification against the code.

Machine integers are embedded as `Nat` (for the unsigned types `u8`, `u16`,
`u32`, `u64`) and `Int` (for `i16`, `i32`, `i64`), with explicit `% 2^w`
truncation where the source relies on fixed-width behaviour.  Readers are
embedded as the list of not-yet-consumed bytes; a reader-consuming function
returns its result together with the remaining bytes.  Rust panics
(`assert_eq!`, `Option::unwrap`) are modelled by a dedicated `crash` outcome,
distinct from returning an error value.
-/

/-- The closed error set of the parser (`ParseError` in the source crate).
Header names and values are carried as byte lists (the bytes of the `&str`). -/
inductive ParseError
  | UnexpectedEof
  | Corrupted
  | HeaderInvalidUtf8
  | HeaderMissingColon
  | InvalidHeader (header value : List Nat)
  | UnknownHeader (header : List Nat)
  | MissingHeader (header : List Nat)
deriving DecidableEq, Repr

/-- Result of running the whole header parser: success, an error value, or a
Rust panic (`assert_eq!` / `unwrap` firing).  A panic is not an error value. -/
inductive PResult (α : Type) where
  | ok (a : α)
  | err (e : ParseError)
  | crash
deriving DecidableEq, Repr

instance {ε α : Type} [DecidableEq ε] [DecidableEq α] : DecidableEq (Except ε α) := fun
  | .error x, .error y =>
    if h : x = y then isTrue (h ▸ rfl) else isFalse (fun hc => by cases hc; exact h rfl)
  | .error _, .ok _ => isFalse (fun hc => by cases hc)
  | .ok _, .error _ => isFalse (fun hc => by cases hc)
  | .ok a, .ok b =>
    if h : a = b then isTrue (h ▸ rfl) else isFalse (fun hc => by cases hc; exact h rfl)

/-- Reinterpret a `u16` bit pattern as an `i16` (two's complement). -/
def toI16 (n : Nat) : Int :=
  if n % 65536 < 32768 then ((n % 65536 : Nat) : Int) else ((n % 65536 : Nat) : Int) - 65536

/-- Reinterpret a `u32` bit pattern as an `i32` (two's complement). -/
def toI32 (n : Nat) : Int :=
  if n % 4294967296 < 2147483648 then ((n % 4294967296 : Nat) : Int)
  else ((n % 4294967296 : Nat) : Int) - 4294967296

/-- Reinterpret a `u64` bit pattern as an `i64` (two's complement). -/
def toI64 (n : Nat) : Int :=
  if n % 18446744073709551616 < 9223372036854775808 then ((n % 18446744073709551616 : Nat) : Int)
  else ((n % 18446744073709551616 : Nat) : Int) - 18446744073709551616

/-- Modelled from the spec: the variable-byte unsigned decoder
(`src/parser/decode/variable.rs` is not part of the provided sources).
Each byte contributes its low 7 bits, least-significant group first; a set
high bit means another group follows; a sixth group is `Corrupted`; running
out of bytes mid-value is `UnexpectedEof`.  The accumulated value is a `u32`
(truncated mod `2^32`).  `i` is the index of the group being read. -/
def variableByteRec (i acc : Nat) : List Nat → Except ParseError (Nat × List Nat)
  | [] => .error .UnexpectedEof
  | b :: rest =>
    if 5 ≤ i then .error .Corrupted
    else
      let acc := acc + b % 128 * 2 ^ (7 * i)
      if 128 ≤ b then variableByteRec (i + 1) acc rest
      else .ok (acc % 4294967296, rest)

/-- Modelled from the spec: `variable` — decode one variable-byte unsigned
`u32` from the reader. -/
def variableByte (data : List Nat) : Except ParseError (Nat × List Nat) :=
  variableByteRec 0 0 data

/-- The value computed by `negative_14_bit` from the decoded variable-byte
value `v`: truncate to `u16` (`v % 65536`); if bit 13 is set, set bits 15..14
and reinterpret as `i16`; widen to `i32`; negate.
(`src/parser/decode/negative_14_bit.rs`.) -/
def n14Value (v : Nat) : Int :=
  -(if 0 < v % 65536 &&& 8192 then toI16 (v % 65536 ||| 49152)
    else ((v % 65536 : Nat) : Int))

/-- `negative_14_bit`: decode variable-byte unsigned, then apply `n14Value`.
(`src/parser/decode/negative_14_bit.rs`.) -/
def negative_14_bit (data : List Nat) : Except ParseError (Int × List Nat) :=
  match variableByte data with
  | .error e => .error e
  | .ok (v, rest) => .ok (n14Value v, rest)

/-- `zig_zag_decode` (`src/parser/decode/mod.rs`): `(value >> 1) as i32 ^
-(value as i32 & 1)`.  `value` is a `u32`; `value >> 1` is non-negative, and
`-(value & 1)` is `0` or `-1`, whose `u32` bit pattern is `0` or all-ones;
`^` on `i32` is bitwise xor of the two's-complement bit patterns. -/
def zig_zag_decode (value : Nat) : Int :=
  toI32 ((value % 4294967296 / 2) ^^^ (if value % 2 = 1 then 4294967295 else 0))

/-- Modelled from the spec (glossary): the zig-zag encoder
`encode(n) = (n << 1) ^ (n >> 31)` on `i32`; the source crate only decodes.
`n << 1` wraps mod `2^32`; `n >> 31` is the arithmetic shift, `0` for
non-negative `n` and `-1` (all-ones) for negative `n`. -/
def zig_zag_encode (n : Int) : Nat :=
  (Int.toNat ((2 * n) % 4294967296)) ^^^ (if n < 0 then 4294967295 else 0)

/-- `sign_extend` (`src/parser/decode/mod.rs`): `(from << unused_bits) as i64
>> unused_bits` with `unused_bits = 64 - bits`.  The left shift wraps mod
`2^64`, the cast reinterprets as `i64`, and the arithmetic right shift of an
`i64` is flooring division by `2^unused_bits`. -/
def sign_extend (x : Nat) (bits : Nat) : Int :=
  Int.fdiv (toI64 ((x <<< (64 - bits)) % 18446744073709551616)) (2 ^ (64 - bits))

/-- The `Encoding` enumeration (`src/parser/decode/mod.rs`). -/
inductive Encoding
  | VariableSigned
  | Variable
  | Negative14Bit
  | EliasDelta
  | EliasDeltaSigned
  | TaggedVariable
  | Tagged32
  | Tagged16
  | Null
  | EliasGamma
  | EliasGammaSigned
deriving DecidableEq, Repr

/-- `TryFromPrimitive` conversion for `Encoding`: each variant has the `u8`
discriminant given in the source (`= 0, 1, 3, 4, ..., 11`); any other tag is
rejected. -/
def Encoding.fromU8 (t : Nat) : Option Encoding :=
  if t = 0 then some .VariableSigned
  else if t = 1 then some .Variable
  else if t = 3 then some .Negative14Bit
  else if t = 4 then some .EliasDelta
  else if t = 5 then some .EliasDeltaSigned
  else if t = 6 then some .TaggedVariable
  else if t = 7 then some .Tagged32
  else if t = 8 then some .Tagged16
  else if t = 9 then some .Null
  else if t = 10 then some .EliasGamma
  else if t = 11 then some .EliasGammaSigned
  else none

/-! ## Header section: byte constants

The byte lists of the string literals that appear in the header state
machine (header names are compared after ASCII-lowercasing). -/

def bProduct : List Nat := [80, 114, 111, 100, 117, 99, 116]
def bDataVersion : List Nat := [68, 97, 116, 97, 32, 118, 101, 114, 115, 105, 111, 110]
def bFirmwareRevision : List Nat :=
  [102, 105, 114, 109, 119, 97, 114, 101, 32, 114, 101, 118, 105, 115, 105, 111, 110]
def bFirmwareType : List Nat := [102, 105, 114, 109, 119, 97, 114, 101, 32, 116, 121, 112, 101]
def bFirmwareTypeCanonical : List Nat :=
  [70, 105, 114, 109, 119, 97, 114, 101, 32, 116, 121, 112, 101]
def bBoardInformation : List Nat :=
  [98, 111, 97, 114, 100, 32, 105, 110, 102, 111, 114, 109, 97, 116, 105, 111, 110]
def bCraftName : List Nat := [99, 114, 97, 102, 116, 32, 110, 97, 109, 101]
def bVbatref : List Nat := [118, 98, 97, 116, 114, 101, 102]
def bMinthrottle : List Nat := [109, 105, 110, 116, 104, 114, 111, 116, 116, 108, 101]
def bMotoroutput : List Nat := [109, 111, 116, 111, 114, 111, 117, 116, 112, 117, 116]
def bCleanflight : List Nat := [99, 108, 101, 97, 110, 102, 108, 105, 103, 104, 116]
def bBaseflight : List Nat := [98, 97, 115, 101, 102, 108, 105, 103, 104, 116]
def bInav : List Nat := [105, 110, 97, 118]
def bFieldSp : List Nat := [70, 105, 101, 108, 100, 32]
def bPropName : List Nat := [110, 97, 109, 101]
def bPropSigned : List Nat := [115, 105, 103, 110, 101, 100]
def bPropPredictor : List Nat := [112, 114, 101, 100, 105, 99, 116, 111, 114]
def bPropEncoding : List Nat := [101, 110, 99, 111, 100, 105, 110, 103]
def bPropWidth : List Nat := [119, 105, 100, 116, 104]
def bFieldIName : List Nat := [70, 105, 101, 108, 100, 32, 73, 32, 110, 97, 109, 101]
def bFieldISigned : List Nat := [70, 105, 101, 108, 100, 32, 73, 32, 115, 105, 103, 110, 101, 100]
def bFieldIPredictor : List Nat :=
  [70, 105, 101, 108, 100, 32, 73, 32, 112, 114, 101, 100, 105, 99, 116, 111, 114]
def bFieldIEncoding : List Nat :=
  [70, 105, 101, 108, 100, 32, 73, 32, 101, 110, 99, 111, 100, 105, 110, 103]
def bFieldSName : List Nat := [70, 105, 101, 108, 100, 32, 83, 32, 110, 97, 109, 101]
def bFieldSSigned : List Nat := [70, 105, 101, 108, 100, 32, 83, 32, 115, 105, 103, 110, 101, 100]
def bFieldSPredictor : List Nat :=
  [70, 105, 101, 108, 100, 32, 83, 32, 112, 114, 101, 100, 105, 99, 116, 111, 114]
def bFieldSEncoding : List Nat :=
  [70, 105, 101, 108, 100, 32, 83, 32, 101, 110, 99, 111, 100, 105, 110, 103]

/-- The bytes of `HProduct:x\nHData version:2\n` — a well-formed pair of
leading headers. -/
def bTwoHeaders : List Nat :=
  [72, 80, 114, 111, 100, 117, 99, 116, 58, 120, 10,
   72, 68, 97, 116, 97, 32, 118, 101, 114, 115, 105, 111, 110, 58, 50, 10]

/-- The bytes of `H no-colon-here\n`. -/
def bNoColonInput : List Nat :=
  [72, 32, 110, 111, 45, 99, 111, 108, 111, 110, 45, 104, 101, 114, 101, 10]

/-- The bytes of `H \xFF:\xFF\n` — invalid UTF-8 after the `H`. -/
def bInvalidUtf8Input : List Nat := [72, 32, 255, 58, 255, 10]

/-- `str::to_ascii_lowercase`, byte by byte (only ASCII letters change). -/
def toLower (s : List Nat) : List Nat :=
  s.map (fun b => if 65 ≤ b ∧ b ≤ 90 then b + 32 else b)

/-- Modelled from the spec: `Reader::read_line` consumption
(`src/parser/reader.rs` is not part of the provided sources): split the
buffer at the first newline, which is consumed but excluded from the line;
without a newline the whole buffer is the line. -/
def splitLine : List Nat → List Nat × List Nat
  | [] => ([], [])
  | b :: rest =>
    if b = 10 then ([], rest)
    else
      let (l, r) := splitLine rest
      (b :: l, r)

/-- Modelled from the spec: `read_line() → optional slice up to and excluding
the next '\n'; EOF reported as absence`. -/
def readLine : List Nat → Option (List Nat × List Nat)
  | [] => none
  | b :: rest => some (splitLine (b :: rest))

/-- Is `b` a UTF-8 continuation byte (`0x80..=0xBF`)? -/
def isCont (b : Nat) : Bool := 128 ≤ b && b ≤ 191

/-- Modelled from the spec: strict UTF-8 validity as checked by
`str::from_utf8` (no overlongs, no surrogates, scalar values ≤ U+10FFFF).
The standard leading-byte classification. -/
def validUtf8 : List Nat → Bool
  | [] => true
  | b :: rest =>
    if b ≤ 127 then validUtf8 rest
    else if 194 ≤ b && b ≤ 223 then
      match rest with
      | b1 :: r => isCont b1 && validUtf8 r
      | [] => false
    else if b = 224 then
      match rest with
      | b1 :: b2 :: r => (160 ≤ b1 && b1 ≤ 191) && isCont b2 && validUtf8 r
      | _ => false
    else if (225 ≤ b && b ≤ 236) || b = 238 || b = 239 then
      match rest with
      | b1 :: b2 :: r => isCont b1 && isCont b2 && validUtf8 r
      | _ => false
    else if b = 237 then
      match rest with
      | b1 :: b2 :: r => (128 ≤ b1 && b1 ≤ 159) && isCont b2 && validUtf8 r
      | _ => false
    else if b = 240 then
      match rest with
      | b1 :: b2 :: b3 :: r => (144 ≤ b1 && b1 ≤ 191) && isCont b2 && isCont b3 && validUtf8 r
      | _ => false
    else if 241 ≤ b && b ≤ 243 then
      match rest with
      | b1 :: b2 :: b3 :: r => isCont b1 && isCont b2 && isCont b3 && validUtf8 r
      | _ => false
    else if b = 244 then
      match rest with
      | b1 :: b2 :: b3 :: r => (128 ≤ b1 && b1 ≤ 143) && isCont b2 && isCont b3 && validUtf8 r
      | _ => false
    else false

/-- `line.strip_prefix(' ').unwrap_or(line)`: drop a single leading space. -/
def stripLeadingSpace : List Nat → List Nat
  | 32 :: rest => rest
  | l => l

/-- `str::split_once(c)`: the part before the first occurrence of `c` and the
part after it; `none` when `c` does not occur. -/
def splitOnce (c : Nat) : List Nat → Option (List Nat × List Nat)
  | [] => none
  | b :: rest =>
    if b = c then some ([], rest)
    else
      match splitOnce c rest with
      | none => none
      | some (n, v) => some (b :: n, v)

/-- `parse_header` (`src/parser/headers/mod.rs`): expect the leading `'H'`
(any other byte is `Corrupted`, EOF is `UnexpectedEof`), read the rest of the
line, require UTF-8, strip one optional leading space, and split at the first
`':'` into name and value (`HeaderMissingColon` when absent).  Returns the
header together with the bytes remaining after the line. -/
def parse_header (bs : List Nat) : Except ParseError ((List Nat × List Nat) × List Nat) :=
  match bs with
  | [] => .error .UnexpectedEof
  | b :: tl =>
    if b = 72 then
      match readLine tl with
      | none => .error .UnexpectedEof
      | some (line, rest) =>
        if validUtf8 line then
          match splitOnce 58 (stripLeadingSpace line) with
          | none => .error .HeaderMissingColon
          | some (name, value) => .ok ((name, value), rest)
        else .error .HeaderInvalidUtf8
    else .error .Corrupted

/-- Is `b` an ASCII digit? -/
def isDigit (b : Nat) : Bool := 48 ≤ b && b ≤ 57

/-- Fold a digit list into the number it denotes (most significant first). -/
def digitsToNat (acc : Nat) : List Nat → Nat
  | [] => acc
  | b :: rest => digitsToNat (acc * 10 + (b - 48)) rest

/-- Modelled from the spec: `str::parse::<u16>()` (the standard library's
integer parser): an optional leading `'+'`, then one or more ASCII digits,
and the value must fit in 16 bits. -/
def parseU16 (s : List Nat) : Option Nat :=
  let t := match s with | 43 :: rest => rest | _ => s
  if !t.isEmpty && t.all isDigit then
    let n := digitsToNat 0 t
    if n < 65536 then some n else none
  else none

/-- `FirmwareKind` (`src/parser/headers/mod.rs`). -/
inductive FirmwareKind
  | Baseflight
  | Cleanflight
  | INav
deriving DecidableEq, Repr

/-- `FirmwareKind::from_str`: match the ASCII-lowercased value; anything else
is `InvalidHeader` with the hard-coded name `Firmware type`. -/
def FirmwareKind.fromStr (s : List Nat) : Except ParseError FirmwareKind :=
  if toLower s = bCleanflight then .ok .Cleanflight
  else if toLower s = bBaseflight then .ok .Baseflight
  else if toLower s = bInav then .ok .INav
  else .error (.InvalidHeader bFirmwareTypeCanonical s)

/-- `MotorOutputRange` (`src/parser/headers/mod.rs`): a `(min, max)` pair of
`u16`. -/
structure MotorOutputRange where
  min : Nat
  max : Nat
deriving DecidableEq, Repr

/-- The parsing core of `MotorOutputRange::from_str`: split once at `','` and
parse both sides as `u16`. -/
def motorOutputSplit (s : List Nat) : Option (Nat × Nat) :=
  match splitOnce 44 s with
  | none => none
  | some (a, b) =>
    match parseU16 a, parseU16 b with
    | some x, some y => some (x, y)
    | _, _ => none

/-- `MotorOutputRange::from_str`: failure is `Corrupted` (the caller in
`State::update` remaps it to `InvalidHeader`). -/
def MotorOutputRange.fromStr (s : List Nat) : Except ParseError MotorOutputRange :=
  match motorOutputSplit s with
  | some (x, y) => .ok ⟨x, y⟩
  | none => .error .Corrupted

/-- `LogVersion` (`crate::LogVersion`): the recognized log format versions. -/
inductive LogVersion
  | V1
  | V2
deriving DecidableEq, Repr

/-- Modelled from the spec: parsing the `Data version` value
(`LogVersion::from_str` is not part of the provided sources); the recognized
values are V1 and V2, written as the decimal digits 1 and 2. -/
def LogVersion.fromStr (s : List Nat) : Option LogVersion :=
  if s = [49] then some .V1
  else if s = [50] then some .V2
  else none

/-- `FrameKind` (`src/parser/frame.rs`, declared in the sources): intra (I),
inter (P) and slow (S) frames. -/
inductive FrameKind
  | Intra
  | Inter
  | Slow
deriving DecidableEq, Repr

/-- The frame-definition properties of a `Field <K> <P>` header. -/
inductive FrameProperty
  | name
  | signed
  | predictor
  | encoding
  | width
deriving DecidableEq, Repr

/-- Modelled from the spec: `is_frame_def_header`
(`src/parser/frame.rs` is not part of the provided sources): a
frame-definition header starts with the literal `Field ` (case-sensitive). -/
def is_frame_def_header (h : List Nat) : Bool := h.take 6 = bFieldSp

/-- Modelled from the spec: `parse_frame_def_header`: after `Field ` comes a
single frame-kind letter (`I`, `P` or `S`), a space, and a property name
(`name`, `signed`, `predictor`, `encoding` or `width`); anything else is
unrecognized. -/
def parse_frame_def_header (h : List Nat) : Option (FrameKind × FrameProperty) :=
  if h.take 6 = bFieldSp then
    match h.drop 6 with
    | k :: 32 :: rest =>
      let kind : Option FrameKind :=
        if k = 73 then some .Intra else if k = 80 then some .Inter
        else if k = 83 then some .Slow else none
      let prop : Option FrameProperty :=
        if rest = bPropName then some .name
        else if rest = bPropSigned then some .signed
        else if rest = bPropPredictor then some .predictor
        else if rest = bPropEncoding then some .encoding
        else if rest = bPropWidth then some .width
        else none
      match kind, prop with
      | some fk, some p => some (fk, p)
      | _, _ => none
    | _ => none
  else none

/-- A single field definition of a frame schema. -/
structure FieldDef where
  name : List Nat
  signed : Bool
  predictor : Nat
  encoding : Encoding
deriving DecidableEq, Repr

/-- The finalized main-frame definition: the privileged `iteration` and
`time` fields followed by the ordinary fields. -/
structure MainFrameDef where
  iteration : FieldDef
  time : FieldDef
  fields : List FieldDef
deriving DecidableEq, Repr

/-- The finalized slow-frame definition. -/
structure SlowFrameDef where
  fields : List FieldDef
deriving DecidableEq, Repr

/-- Modelled from the spec: `MainFrameDefBuilder`: the raw comma-separated
value of each `Field I ...` / `Field P ...` header seen so far (`width` is
recognized but ignored). -/
structure MainFrameDefBuilder where
  i_name : Option (List Nat)
  i_signed : Option (List Nat)
  i_predictor : Option (List Nat)
  i_encoding : Option (List Nat)
  p_name : Option (List Nat)
  p_signed : Option (List Nat)
  p_predictor : Option (List Nat)
  p_encoding : Option (List Nat)
deriving DecidableEq, Repr

def MainFrameDefBuilder.empty : MainFrameDefBuilder :=
  ⟨none, none, none, none, none, none, none, none⟩

/-- Modelled from the spec: store a `Field I ...` / `Field P ...` value in
the builder; `width` is ignored. -/
def MainFrameDefBuilder.update (b : MainFrameDefBuilder) (kind : FrameKind)
    (prop : FrameProperty) (value : List Nat) : MainFrameDefBuilder :=
  match kind, prop with
  | .Intra, .name => { b with i_name := some value }
  | .Intra, .signed => { b with i_signed := some value }
  | .Intra, .predictor => { b with i_predictor := some value }
  | .Intra, .encoding => { b with i_encoding := some value }
  | .Inter, .name => { b with p_name := some value }
  | .Inter, .signed => { b with p_signed := some value }
  | .Inter, .predictor => { b with p_predictor := some value }
  | .Inter, .encoding => { b with p_encoding := some value }
  | _, _ => b

/-- Modelled from the spec: `SlowFrameDefBuilder`. -/
structure SlowFrameDefBuilder where
  s_name : Option (List Nat)
  s_signed : Option (List Nat)
  s_predictor : Option (List Nat)
  s_encoding : Option (List Nat)
deriving DecidableEq, Repr

def SlowFrameDefBuilder.empty : SlowFrameDefBuilder := ⟨none, none, none, none⟩

def SlowFrameDefBuilder.update (b : SlowFrameDefBuilder) (prop : FrameProperty)
    (value : List Nat) : SlowFrameDefBuilder :=
  match prop with
  | .name => { b with s_name := some value }
  | .signed => { b with s_signed := some value }
  | .predictor => { b with s_predictor := some value }
  | .encoding => { b with s_encoding := some value }
  | .width => b

/-- `str::split(',')`: every comma-separated piece (empty pieces kept). -/
def splitAllComma : List Nat → List (List Nat)
  | [] => [[]]
  | b :: rest =>
    if b = 44 then [] :: splitAllComma rest
    else
      match splitAllComma rest with
      | [] => [[b]]
      | g :: gs => (b :: g) :: gs

/-- Apply `f` to every element, failing when any application fails. -/
def mapOption {α : Type} (f : List Nat → Option α) : List (List Nat) → Option (List α)
  | [] => some []
  | x :: xs =>
    match f x, mapOption f xs with
    | some y, some ys => some (y :: ys)
    | _, _ => none

/-- Zip the four per-field property lists into field definitions. -/
def zipFields : List (List Nat) → List Bool → List Nat → List Encoding → List FieldDef
  | n :: ns, s :: ss, p :: ps, e :: es => ⟨n, s, p, e⟩ :: zipFields ns ss ps es
  | _, _, _, _ => []

/-- Modelled from the spec: finalization of the main-frame builder: each
required `Field I ...` list must be present (else `MissingHeader`), the
comma-separated lists must parse and have equal cardinality (else
`Corrupted`), at least the two privileged fields must exist, and a `Field P
name` list, when present, must agree with the `Field I name` list. -/
def MainFrameDefBuilder.parse (b : MainFrameDefBuilder) : Except ParseError MainFrameDef :=
  match b.i_name with
  | none => .error (.MissingHeader bFieldIName)
  | some nv =>
    match b.i_signed with
    | none => .error (.MissingHeader bFieldISigned)
    | some sv =>
      match b.i_predictor with
      | none => .error (.MissingHeader bFieldIPredictor)
      | some pv =>
        match b.i_encoding with
        | none => .error (.MissingHeader bFieldIEncoding)
        | some ev =>
          let names := splitAllComma nv
          match mapOption parseU16 (splitAllComma sv),
                mapOption parseU16 (splitAllComma pv),
                mapOption (fun e => (parseU16 e).bind Encoding.fromU8) (splitAllComma ev) with
          | some signs, some preds, some encs =>
            if signs.length = names.length ∧ preds.length = names.length ∧
               encs.length = names.length then
              match b.p_name with
              | some pn =>
                if splitAllComma pn = names then
                  mainFromLists names (signs.map (fun n => n ≠ 0)) preds encs
                else .error .Corrupted
              | none => mainFromLists names (signs.map (fun n => n ≠ 0)) preds encs
            else .error .Corrupted
          | _, _, _ => .error .Corrupted
where
  mainFromLists (names : List (List Nat)) (signs : List Bool) (preds : List Nat)
      (encs : List Encoding) : Except ParseError MainFrameDef :=
    match zipFields names signs preds encs with
    | it :: tm :: rest => .ok ⟨it, tm, rest⟩
    | _ => .error .Corrupted

/-- Modelled from the spec: finalization of the slow-frame builder: with no
`Field S ...` header at all the slow frame is empty; otherwise all four lists
must be present, parse, and have equal cardinality. -/
def SlowFrameDefBuilder.parse (b : SlowFrameDefBuilder) : Except ParseError SlowFrameDef :=
  match b.s_name, b.s_signed, b.s_predictor, b.s_encoding with
  | none, none, none, none => .ok ⟨[]⟩
  | some nv, some sv, some pv, some ev =>
    let names := splitAllComma nv
    match mapOption parseU16 (splitAllComma sv),
          mapOption parseU16 (splitAllComma pv),
          mapOption (fun e => (parseU16 e).bind Encoding.fromU8) (splitAllComma ev) with
    | some signs, some preds, some encs =>
      if signs.length = names.length ∧ preds.length = names.length ∧
         encs.length = names.length then
        .ok ⟨zipFields names (signs.map (fun n => n ≠ 0)) preds encs⟩
      else .error .Corrupted
    | _, _, _ => .error .Corrupted
  | _, _, _, _ => .error (.MissingHeader bFieldSName)

/-- The finalized schema descriptor (`Headers` in the source). -/
structure Headers where
  version : LogVersion
  main_frames : MainFrameDef
  slow_frames : SlowFrameDef
  firmware_revision : List Nat
  firmware_kind : FirmwareKind
  board_info : List Nat
  craft_name : List Nat
  vbat_reference : Nat
  min_throttle : Nat
  motor_output_range : MotorOutputRange
deriving DecidableEq, Repr

/-- The accumulating state of the header state machine (`State` in the
source). -/
structure State where
  version : LogVersion
  main_frames : MainFrameDefBuilder
  slow_frames : SlowFrameDefBuilder
  firmware_revision : Option (List Nat)
  firmware_kind : Option FirmwareKind
  board_info : Option (List Nat)
  craft_name : Option (List Nat)
  vbat_reference : Option Nat
  min_throttle : Option Nat
  motor_output_range : Option MotorOutputRange
deriving DecidableEq, Repr

/-- `State::new`. -/
def State.new (version : LogVersion) : State :=
  ⟨version, .empty, .empty, none, none, none, none, none, none, none⟩

/-- `State::update` (`src/parser/headers/mod.rs`): dispatch on the
ASCII-lowercased header name; recognized metadata headers store their
(parsed) value, `Field ...` headers update the frame builders, and any other
header is logged and skipped (no error, no state change). -/
def State.update (s : State) (header value : List Nat) : Except ParseError State :=
  let lower := toLower header
  if lower = bFirmwareRevision then .ok { s with firmware_revision := some value }
  else if lower = bFirmwareType then
    match FirmwareKind.fromStr value with
    | .error e => .error e
    | .ok k => .ok { s with firmware_kind := some k }
  else if lower = bBoardInformation then .ok { s with board_info := some value }
  else if lower = bCraftName then .ok { s with craft_name := some value }
  else if lower = bVbatref then
    match parseU16 value with
    | none => .error (.InvalidHeader header value)
    | some n => .ok { s with vbat_reference := some n }
  else if lower = bMinthrottle then
    match parseU16 value with
    | none => .error (.InvalidHeader header value)
    | some n => .ok { s with min_throttle := some n }
  else if lower = bMotoroutput then
    match MotorOutputRange.fromStr value with
    | .error _ => .error (.InvalidHeader header value)
    | .ok r => .ok { s with motor_output_range := some r }
  else if is_frame_def_header header then
    match parse_frame_def_header header with
    | none => .error (.UnknownHeader header)
    | some (fk, prop) =>
      match fk with
      | .Intra | .Inter => .ok { s with main_frames := s.main_frames.update fk prop value }
      | .Slow => .ok { s with slow_frames := s.slow_frames.update prop value }
  else .ok s

/-- `State::finish` (`src/parser/headers/mod.rs`): finalize the frame
builders (propagating their errors), then move the metadata out of the
`Option`s with `unwrap` — the source crashes when any required metadata
header is absent (the `TODO: return an error instead of unwrap` comment in
the source marks this), modelled by `crash`. -/
def State.finish (s : State) : PResult Headers :=
  match s.main_frames.parse with
  | .error e => .err e
  | .ok mf =>
    match s.slow_frames.parse with
    | .error e => .err e
    | .ok sf =>
      match s.firmware_revision, s.firmware_kind, s.board_info, s.craft_name,
            s.vbat_reference, s.min_throttle, s.motor_output_range with
      | some fr, some fk, some bi, some cn, some vb, some mt, some mor =>
        .ok ⟨s.version, mf, sf, fr, fk, bi, cn, vb, mt, mor⟩
      | _, _, _, _, _, _, _ => .crash

theorem splitLine_snd_length (bs : List Nat) : (splitLine bs).2.length ≤ bs.length := by
  induction bs with
  | nil => simp [splitLine]
  | cons b rest ih =>
    simp only [splitLine]
    split
    · simp
    · simp only [List.length_cons]
      omega

theorem parse_header_length {bs : List Nat} {nv : List Nat × List Nat} {rest : List Nat}
    (h : parse_header bs = .ok (nv, rest)) : rest.length < bs.length := by
  match bs with
  | [] => simp [parse_header] at h
  | b :: tl =>
    simp only [parse_header] at h
    split at h
    · match htl : readLine tl with
      | none => rw [htl] at h; simp at h
      | some (line, r) =>
        rw [htl] at h
        simp only at h
        split at h
        · split at h
          · simp at h
          · simp only [Except.ok.injEq, Prod.mk.injEq] at h
            obtain ⟨-, hr⟩ := h
            subst hr
            match tl with
            | [] => simp [readLine] at htl
            | c :: tl2 =>
              simp only [readLine, Option.some.injEq] at htl
              have := splitLine_snd_length (c :: tl2)
              rw [htl] at this
              simp only [List.length_cons] at this ⊢
              omega
        · simp at h
    · simp at h

/-- The accumulating loop of `Headers::parse`: peek the next byte; on `'H'`
read one header, apply it to the state and continue; on any other byte stop
and finalize; on EOF fail with `UnexpectedEof`. -/
def parseLoop (s : State) (bs : List Nat) : PResult Headers :=
  match bs with
  | [] => .err .UnexpectedEof
  | b :: tl =>
    if b = 72 then
      match hph : parse_header (b :: tl) with
      | .error e => .err e
      | .ok ((n, v), rest) =>
        match s.update n v with
        | .error e => .err e
        | .ok s2 => parseLoop s2 rest
    else s.finish
termination_by bs.length
decreasing_by exact parse_header_length hph

/-- `Headers::parse` (`src/parser/headers/mod.rs`): read the first header and
`assert_eq!` its name against `Product` (a panic, not an error, on mismatch);
read the second header, `assert_eq!` its name against `Data version`, parse
the version (`InvalidHeader` on failure); then run the accumulating loop. -/
def Headers.parse (bs : List Nat) : PResult Headers :=
  match parse_header bs with
  | .error e => .err e
  | .ok ((name, _product), rest) =>
    if name = bProduct then
      match parse_header rest with
      | .error e => .err e
      | .ok ((name2, value2), rest2) =>
        if name2 = bDataVersion then
          match LogVersion.fromStr value2 with
          | none => .err (.InvalidHeader name2 value2)
          | some v => parseLoop (State.new v) rest2
        else .crash
    else .crash

/-! ## Shared lemmas -/

theorem splitLine_append (line rest : List Nat) (h : 10 ∉ line) :
    splitLine (line ++ 10 :: rest) = (line, rest) := by
  induction line with
  | nil => simp [splitLine]
  | cons b tl ih =>
    simp only [List.cons_append, splitLine]
    have hb : b ≠ 10 := fun e => h (e ▸ List.mem_cons_self b tl)
    rw [if_neg hb]
    simp only [List.append_eq]
    rw [ih (fun hm => h (List.mem_cons_of_mem _ hm))]

theorem readLine_append (line rest : List Nat) (h : 10 ∉ line) :
    readLine (line ++ 10 :: rest) = some (line, rest) := by
  cases line with
  | nil => simp [readLine, splitLine]
  | cons b tl =>
    simp only [List.cons_append, readLine]
    rw [← List.cons_append, splitLine_append (b :: tl) rest h]

theorem xor_two_pow_sub_one {w a : Nat} (h : a < 2 ^ w) :
    a ^^^ (2 ^ w - 1) = 2 ^ w - 1 - a := by
  have h1 : 2 ^ w - 1 - a = 2 ^ w - (a + 1) := by omega
  rw [h1]
  apply Nat.eq_of_testBit_eq
  intro i
  rw [Nat.testBit_xor, Nat.testBit_two_pow_sub_succ h, Nat.testBit_two_pow_sub_one]
  by_cases hi : i < w
  · simp [hi]
  · have hf : a.testBit i = false :=
      Nat.testBit_lt_two_pow (lt_of_lt_of_le h (Nat.pow_le_pow_right (by norm_num) (by omega)))
    simp [hi, hf]

theorem toI64_of_lt (n : Nat) (h : n < 18446744073709551616) :
    toI64 n = if n < 9223372036854775808 then (n : Int) else (n : Int) - 18446744073709551616 := by
  unfold toI64
  rw [Nat.mod_eq_of_lt h]

theorem parseLoop_header_error (s : State) (tl : List Nat) (e : ParseError)
    (he : parse_header (72 :: tl) = .error e) : parseLoop s (72 :: tl) = .err e := by
  rw [parseLoop]
  simp only [reduceIte]
  split
  · rename_i e1 heq
    rw [he] at heq
    cases heq
    rfl
  · rename_i n v rest heq
    rw [he] at heq
    cases heq

theorem parseLoop_header_ok (s : State) (tl : List Nat) (n v : List Nat) (rest : List Nat)
    (he : parse_header (72 :: tl) = .ok ((n, v), rest)) :
    parseLoop s (72 :: tl) =
      match s.update n v with
      | .error e => .err e
      | .ok s2 => parseLoop s2 rest := by
  rw [parseLoop]
  simp only [reduceIte]
  split
  · rename_i e1 heq
    rw [he] at heq
    cases heq
  · rename_i n1 v1 rest1 heq
    rw [he] at heq
    cases heq
    rfl

/-! ## Claim theorems -/

/-- C1: the claim says `Headers::parse` either returns a schema descriptor or
one of the §7 error values, and never panics on in-bounds byte data — in
particular a first header whose name is not `Product` must produce an error
value.  The code violates this: on the byte sequence `H A:B\n` (a well-formed
header line whose name is `A`) the `assert_eq!` against `Product` fires and
the process panics instead of returning an error value; the analogous
`assert_eq!` for the second header and the metadata `unwrap`s at finalization
(marked `TODO: return an error instead of unwrap` in the source) panic the
same way.  The spec itself flags the unwrap crash and states the error is the
intended contract, so this is recorded as a code bug; the theorem evaluates
the embedded parser at the failing input. -/
theorem headers_parse_crash_on_unexpected_product :
    Headers.parse [72, 32, 65, 58, 66, 10] = .crash := by decide

/-- C2 counterexample: the claim says the result of `negative_14_bit` is a
function of only the low 14 bits of the decoded variable-byte value.  The
byte sequences `[0x00]` and `[0x80, 0x80, 0x01]` decode to `0` and `0x4000`,
which agree on bits 0..13, yet `negative_14_bit` returns `0` for the first
and `-16384` for the second: bits 14 and 15 of the `u16` truncation survive
when bit 13 is clear. -/
theorem negative_14_bit_low14_cex :
    variableByte [0] = .ok (0, []) ∧
    variableByte [128, 128, 1] = .ok (16384, []) ∧
    0 % 2 ^ 14 = 16384 % 2 ^ 14 ∧
    negative_14_bit [0] ≠ negative_14_bit [128, 128, 1] := by decide

/-- C2 (amended): the result of `negative_14_bit` is a function of only the
low 16 bits of the decoded variable-byte unsigned value: two inputs whose
decoded values agree on bits 0..15 yield the same result (the codec truncates
to `u16`; when bit 13 is set it also overwrites bits 15..14, but when bit 13
is clear those bits pass through). -/
theorem negative_14_bit_low16 (bs1 bs2 : List Nat) (u1 u2 : Nat) (r1 r2 : List Nat)
    (h1 : variableByte bs1 = .ok (u1, r1)) (h2 : variableByte bs2 = .ok (u2, r2))
    (h : u1 % 65536 = u2 % 65536) :
    negative_14_bit bs1 = .ok (n14Value u1, r1) ∧
    negative_14_bit bs2 = .ok (n14Value u2, r2) ∧
    n14Value u1 = n14Value u2 := by
  refine ⟨by simp [negative_14_bit, h1], by simp [negative_14_bit, h2], ?_⟩
  unfold n14Value
  rw [h]

theorem negative_14_bit_low16_witness :
    (16383 % 65536 = 81919 % 65536) ∧
    (negative_14_bit [255, 127] = .ok (n14Value 16383, []) ∧
     negative_14_bit [255, 255, 4] = .ok (n14Value 81919, []) ∧
     n14Value 16383 = n14Value 81919) :=
  ⟨by decide,
   negative_14_bit_low16 [255, 127] [255, 255, 4] 16383 81919 [] []
     (by decide) (by decide) (by decide)⟩

/-- C3: `negative_14_bit` on a fresh reader returns exactly the stated
values: `[0x00]` gives `0`, `[0xFF, 0x3F]` gives `-8191`, `[0x80, 0x40]`
gives `8192`, and `[0xFF, 0xFF, 0xFF, 0xFF, 0x7F]` gives `1`. -/
theorem negative_14_bit_concrete :
    negative_14_bit [0] = .ok (0, []) ∧
    negative_14_bit [255, 63] = .ok (-8191, []) ∧
    negative_14_bit [128, 64] = .ok (8192, []) ∧
    negative_14_bit [255, 255, 255, 255, 127] = .ok (1, []) := by decide

/-- C4: zig-zag decoding computes `(u >> 1) ^ -(u & 1)` as an `i32` (the
definition of `zig_zag_decode`); in particular `0 ↦ 0`, `1 ↦ -1`,
`u32::MAX ↦ i32::MIN`, `u32::MAX - 1 ↦ i32::MAX`; and composed with the
glossary's encoder `encode(n) = (n << 1) ^ (n >> 31)` it is the identity on
every `i32`. -/
theorem zig_zag_spec :
    zig_zag_decode 0 = 0 ∧ zig_zag_decode 1 = -1 ∧
    zig_zag_decode 4294967295 = -2147483648 ∧ zig_zag_decode 4294967294 = 2147483647 ∧
    ∀ n : Int, -2147483648 ≤ n → n < 2147483648 →
      zig_zag_decode (zig_zag_encode n) = n := by
  refine ⟨by decide, by decide, by decide, by decide, fun n hlo hhi => ?_⟩
  by_cases hn : n < 0
  · set m : Nat := ((2 * n) % 4294967296).toNat with hm
    have hm1 : (m : Int) = 2 * n + 4294967296 := by omega
    have hmlt : m < 4294967296 := by omega
    have hmev : m % 2 = 0 := by omega
    have he : zig_zag_encode n = m ^^^ 4294967295 := by
      unfold zig_zag_encode
      rw [if_pos hn]
    have he2 : m ^^^ 4294967295 = 4294967295 - m := by
      have h32 := xor_two_pow_sub_one (w := 32) (a := m) (by norm_num [hmlt])
      norm_num at h32
      exact h32
    rw [he, he2]
    unfold zig_zag_decode
    rw [Nat.mod_eq_of_lt (by omega)]
    rw [if_pos (by omega : (4294967295 - m) % 2 = 1)]
    have hdiv : (4294967295 - m) / 2 = 2147483647 - m / 2 := by omega
    rw [hdiv]
    have h2 : (2147483647 - m / 2) ^^^ 4294967295 = 4294967295 - (2147483647 - m / 2) := by
      have h32 := xor_two_pow_sub_one (w := 32) (a := 2147483647 - m / 2) (by norm_num; omega)
      norm_num at h32
      exact h32
    rw [h2]
    have h3 : 4294967295 - (2147483647 - m / 2) = 2147483648 + m / 2 := by omega
    rw [h3]
    unfold toI32
    rw [Nat.mod_eq_of_lt (by omega)]
    rw [if_neg (by omega)]
    omega
  · push_neg at hn
    have he : zig_zag_encode n = 2 * n.toNat := by
      unfold zig_zag_encode
      rw [if_neg (by omega), Int.emod_eq_of_lt (by omega) (by omega), Nat.xor_zero]
      omega
    rw [he]
    unfold zig_zag_decode
    rw [Nat.mod_eq_of_lt (by omega)]
    rw [if_neg (by omega), Nat.xor_zero]
    have h3 : 2 * n.toNat / 2 = n.toNat := by omega
    rw [h3]
    unfold toI32
    rw [Nat.mod_eq_of_lt (by omega)]
    rw [if_pos (by omega)]
    omega

theorem zig_zag_spec_witness :
    (-2147483648 ≤ (-5 : Int)) ∧ ((-5 : Int) < 2147483648) ∧
    zig_zag_decode (zig_zag_encode (-5)) = -5 :=
  ⟨by decide, by decide, zig_zag_spec.2.2.2.2 (-5) (by decide) (by decide)⟩

/-- C5: for every width `w ∈ [1, 64]` and every `u64` input `x`,
`sign_extend(x, w)` returns a value in `[-2^(w-1), 2^(w-1)-1]` whose low `w`
bits equal the low `w` bits of `x`; the width-2 truth table is
`0b00 ↦ 0, 0b01 ↦ 1, 0b10 ↦ -2, 0b11 ↦ -1`. -/
theorem sign_extend_spec :
    (∀ x w : Nat, 1 ≤ w → w ≤ 64 → x < 18446744073709551616 →
      -(2 ^ (w - 1) : Int) ≤ sign_extend x w ∧ sign_extend x w ≤ 2 ^ (w - 1) - 1 ∧
      sign_extend x w % (2 ^ w : Int) = (x : Int) % (2 ^ w : Int)) ∧
    sign_extend 0 2 = 0 ∧ sign_extend 1 2 = 1 ∧ sign_extend 2 2 = -2 ∧ sign_extend 3 2 = -1 := by
  refine ⟨fun x w hw1 hw64 hx => ?_, by decide, by decide, by decide, by decide⟩
  unfold sign_extend
  rw [Nat.shiftLeft_eq]
  set u := 64 - w with hu
  have hsplit : (18446744073709551616 : Nat) = 2 ^ w * 2 ^ u := by
    have h64 : (18446744073709551616 : Nat) = 2 ^ 64 := by norm_num
    rw [h64, ← pow_add]
    congr 1
    omega
  have hkey : x * 2 ^ u % 18446744073709551616 = x % 2 ^ w * 2 ^ u := by
    rw [hsplit, Nat.mul_mod_mul_right]
  rw [hkey]
  set l := x % 2 ^ w with hl
  have hlw : l < 2 ^ w := Nat.mod_lt _ (by positivity)
  have hlN : l * 2 ^ u < 18446744073709551616 := by
    rw [hsplit]
    exact (Nat.mul_lt_mul_right (by positivity)).2 hlw
  have h63 : (9223372036854775808 : Nat) = 2 ^ (w - 1) * 2 ^ u := by
    have h9 : (9223372036854775808 : Nat) = 2 ^ 63 := by norm_num
    rw [h9, ← pow_add]
    congr 1
    omega
  have hup : (2 : Nat) ^ w = 2 * 2 ^ (w - 1) := by
    rw [← pow_succ']
    congr 1
    omega
  rw [toI64_of_lt _ hlN]
  have hcond : (l * 2 ^ u < 9223372036854775808) ↔ l < 2 ^ (w - 1) := by
    rw [h63]
    exact Nat.mul_lt_mul_right (by positivity)
  have hxmod : ((l : Int)) % (2 ^ w : Int) = (x : Int) % (2 ^ w : Int) := by
    rw [hl]
    push_cast
    rw [Int.emod_emod_of_dvd _ dvd_rfl]
  by_cases hc : l < 2 ^ (w - 1)
  · rw [if_pos (hcond.2 hc)]
    push_cast
    rw [Int.mul_fdiv_cancel _ (by positivity)]
    have hlc : (l : Int) < 2 ^ (w - 1) := by exact_mod_cast hc
    have hp : (0 : Int) < 2 ^ (w - 1) := by positivity
    refine ⟨by linarith [Int.natCast_nonneg l], by linarith, ?_⟩
    exact hxmod
  · rw [if_neg ((not_congr hcond).2 hc)]
    have hfact : ((l * 2 ^ u : Nat) : Int) - 18446744073709551616 =
        ((l : Int) - 2 ^ w) * 2 ^ u := by
      have hc1 : ((18446744073709551616 : Nat) : Int) = ((2 ^ w * 2 ^ u : Nat) : Int) := by
        exact_mod_cast congrArg (Nat.cast : Nat → Int) hsplit
      push_cast at hc1
      push_cast
      rw [show ((18446744073709551616 : Int)) = (2 : Int) ^ w * 2 ^ u from by exact_mod_cast hc1]
      ring
    rw [hfact, Int.mul_fdiv_cancel _ (by positivity)]
    have hlInt : (2 : Int) ^ (w - 1) ≤ (l : Int) := by exact_mod_cast not_lt.1 hc
    have hlwInt : (l : Int) < 2 ^ w := by exact_mod_cast hlw
    have hupInt : (2 : Int) ^ w = 2 * 2 ^ (w - 1) := by exact_mod_cast hup
    have hp1 : (1 : Int) ≤ 2 ^ (w - 1) := by exact_mod_cast Nat.one_le_two_pow
    refine ⟨by linarith, by linarith, ?_⟩
    rw [Int.sub_emod, Int.emod_self, sub_zero, Int.emod_emod_of_dvd _ dvd_rfl]
    exact hxmod

theorem sign_extend_spec_witness :
    (1 ≤ 2 ∧ 2 ≤ 64 ∧ (2 : Nat) < 18446744073709551616) ∧
    (-(2 ^ (2 - 1) : Int) ≤ sign_extend 2 2 ∧ sign_extend 2 2 ≤ 2 ^ (2 - 1) - 1 ∧
      sign_extend 2 2 % (2 ^ 2 : Int) = ((2 : Nat) : Int) % (2 ^ 2 : Int)) :=
  ⟨⟨by decide, by decide, by decide⟩, sign_extend_spec.1 2 2 (by decide) (by decide) (by decide)⟩

/-- C6: `parse_header` on a line beginning with `H` validates UTF-8 and
strips at most one leading space; the bytes of `H \xFF:\xFF\n` give
`HeaderInvalidUtf8`, the bytes of `H no-colon-here\n` give
`HeaderMissingColon`, and in general for a newline-free valid-UTF-8 line:
if the (space-stripped) line has no colon the result is `HeaderMissingColon`,
otherwise the name is the text before the first `:` and the value everything
after it up to the newline. -/
theorem parse_header_spec :
    parse_header bInvalidUtf8Input = .error .HeaderInvalidUtf8 ∧
    parse_header bNoColonInput = .error .HeaderMissingColon ∧
    ∀ line rest : List Nat, 10 ∉ line →
      (validUtf8 line = false →
        parse_header (72 :: (line ++ 10 :: rest)) = .error .HeaderInvalidUtf8) ∧
      (validUtf8 line = true →
        (splitOnce 58 (stripLeadingSpace line) = none →
          parse_header (72 :: (line ++ 10 :: rest)) = .error .HeaderMissingColon) ∧
        (∀ name value : List Nat, splitOnce 58 (stripLeadingSpace line) = some (name, value) →
          parse_header (72 :: (line ++ 10 :: rest)) = .ok ((name, value), rest))) := by
  refine ⟨by decide, by decide, fun line rest hnl =>
    ⟨fun hutf => ?_, fun hutf => ⟨fun hsc => ?_, fun name value hsc => ?_⟩⟩⟩
  · simp only [parse_header, readLine_append line rest hnl, hutf, Bool.false_eq_true,
      if_false, reduceIte]
  all_goals
    simp only [parse_header, readLine_append line rest hnl, hutf, if_true, reduceIte, hsc]

theorem parse_header_spec_witness :
    (10 ∉ ([97, 58, 98] : List Nat)) ∧ validUtf8 [97, 58, 98] = true ∧
    parse_header (72 :: ([97, 58, 98] ++ 10 :: [99])) = .ok (([97], [98]), [99]) :=
  ⟨by decide, by decide,
   ((parse_header_spec.2.2 [97, 58, 98] [99] (by decide)).2 (by decide)).2 [97] [98] (by decide)⟩

/-- C7: after the two fixed leading headers, `Headers::parse` loops by
peeking one byte: `H` reads and applies one more header and continues, any
other byte stops and finalizes, and EOF at top of line is `UnexpectedEof`
rather than finalization.  The last conjunct ties `Headers.parse` to the
loop: after a well-formed `Product` / `Data version` prefix, parsing is
exactly the loop on the remaining bytes. -/
theorem headers_parse_loop_spec :
    (∀ s : State, parseLoop s [] = .err .UnexpectedEof) ∧
    (∀ (s : State) (b : Nat) (tl : List Nat), b ≠ 72 → parseLoop s (b :: tl) = s.finish) ∧
    (∀ (s : State) (tl : List Nat) (e : ParseError), parse_header (72 :: tl) = .error e →
      parseLoop s (72 :: tl) = .err e) ∧
    (∀ (s : State) (tl n v rest : List Nat), parse_header (72 :: tl) = .ok ((n, v), rest) →
      (∀ e, s.update n v = .error e → parseLoop s (72 :: tl) = .err e) ∧
      (∀ s2, s.update n v = .ok s2 → parseLoop s (72 :: tl) = parseLoop s2 rest)) ∧
    (∀ rest : List Nat, Headers.parse (bTwoHeaders ++ rest) = parseLoop (State.new .V2) rest) := by
  refine ⟨fun s => ?_, fun s b tl hb => ?_,
    fun s tl e he => parseLoop_header_error s tl e he,
    fun s tl n v rest he => ⟨fun e hu => ?_, fun s2 hu => ?_⟩,
    fun rest => rfl⟩
  · rw [parseLoop]
  · rw [parseLoop, if_neg hb]
  · rw [parseLoop_header_ok s tl n v rest he, hu]
  · rw [parseLoop_header_ok s tl n v rest he, hu]

theorem headers_parse_loop_spec_witness :
    (66 ≠ 72) ∧ parseLoop (State.new .V1) [66] = (State.new .V1).finish ∧
    (State.new .V1).finish = .err (.MissingHeader bFieldIName) :=
  ⟨by decide, headers_parse_loop_spec.2.1 (State.new .V1) 66 [] (by decide), by decide⟩

/-- C8: a well-formed header whose lowercased name is none of the seven
recognized metadata names and which is not a `Field ...` frame-definition
header is skipped: `State::update` succeeds and leaves the accumulated state
(builders and all metadata options) unchanged. -/
theorem state_update_unknown_skipped (s : State) (h v : List Nat)
    (h1 : toLower h ≠ bFirmwareRevision) (h2 : toLower h ≠ bFirmwareType)
    (h3 : toLower h ≠ bBoardInformation) (h4 : toLower h ≠ bCraftName)
    (h5 : toLower h ≠ bVbatref) (h6 : toLower h ≠ bMinthrottle)
    (h7 : toLower h ≠ bMotoroutput) (h8 : is_frame_def_header h = false) :
    s.update h v = .ok s := by
  simp [State.update, h1, h2, h3, h4, h5, h6, h7, h8]

theorem state_update_unknown_skipped_witness :
    is_frame_def_header [88] = false ∧ toLower [88] ≠ bVbatref ∧
    (State.new .V1).update [88] [121] = .ok (State.new .V1) :=
  ⟨by decide, by decide,
   state_update_unknown_skipped (State.new .V1) [88] [121] (by decide) (by decide) (by decide)
     (by decide) (by decide) (by decide) (by decide) (by decide)⟩

/-- C9: recognized metadata headers with unparseable values fail with
`InvalidHeader` carrying name and value, and parseable values are stored: a
`Firmware type` value outside {baseflight, cleanflight, inav} (compared
ASCII-lowercased) errors with the canonical name `Firmware type`; `vbatref` /
`minthrottle` values that are not `u16`, and `motoroutput` values that are
not a comma-separated `u16` pair, error with the header as written; parseable
values are stored in the corresponding state field and succeed. -/
theorem state_update_metadata (s : State) (h v : List Nat) :
    ((toLower v ≠ bBaseflight ∧ toLower v ≠ bCleanflight ∧ toLower v ≠ bInav) →
      s.update bFirmwareTypeCanonical v = .error (.InvalidHeader bFirmwareTypeCanonical v)) ∧
    (∀ k, FirmwareKind.fromStr v = .ok k →
      s.update bFirmwareTypeCanonical v = .ok { s with firmware_kind := some k }) ∧
    (toLower h = bVbatref → parseU16 v = none →
      s.update h v = .error (.InvalidHeader h v)) ∧
    (toLower h = bVbatref → ∀ n, parseU16 v = some n →
      s.update h v = .ok { s with vbat_reference := some n }) ∧
    (toLower h = bMinthrottle → parseU16 v = none →
      s.update h v = .error (.InvalidHeader h v)) ∧
    (toLower h = bMinthrottle → ∀ n, parseU16 v = some n →
      s.update h v = .ok { s with min_throttle := some n }) ∧
    (toLower h = bMotoroutput → motorOutputSplit v = none →
      s.update h v = .error (.InvalidHeader h v)) ∧
    (toLower h = bMotoroutput → ∀ x y, motorOutputSplit v = some (x, y) →
      s.update h v = .ok { s with motor_output_range := some ⟨x, y⟩ }) := by
  have hlow : toLower bFirmwareTypeCanonical = bFirmwareType := by decide
  refine ⟨fun ⟨ha, hb, hc⟩ => ?_, fun k hk => ?_, fun hh hp => ?_, fun hh n hp => ?_,
    fun hh hp => ?_, fun hh n hp => ?_, fun hh hp => ?_, fun hh x y hp => ?_⟩
  · simp [State.update, hlow, FirmwareKind.fromStr, ha, hb, hc, bFirmwareRevision,
      bFirmwareType, bBoardInformation, bCraftName, bVbatref, bMinthrottle, bMotoroutput]
  · simp [State.update, hlow, hk, bFirmwareRevision, bFirmwareType]
  all_goals simp [State.update, MotorOutputRange.fromStr, hh, hp, bFirmwareRevision,
    bFirmwareType, bBoardInformation, bCraftName, bVbatref, bMinthrottle, bMotoroutput]

theorem state_update_metadata_witness :
    toLower [86, 66, 65, 84, 82, 69, 70] = bVbatref ∧ parseU16 [120] = none ∧
    (State.new .V1).update [86, 66, 65, 84, 82, 69, 70] [120] =
      .error (.InvalidHeader [86, 66, 65, 84, 82, 69, 70] [120]) :=
  ⟨by decide, by decide,
   (state_update_metadata (State.new .V1) [86, 66, 65, 84, 82, 69, 70] [120]).2.2.1
     (by decide) (by decide)⟩

theorem fromU8_none_of_gt (t : Nat) (ht : 11 < t) : Encoding.fromU8 t = none := by
  unfold Encoding.fromU8
  rw [if_neg (by omega : ¬t = 0), if_neg (by omega : ¬t = 1), if_neg (by omega : ¬t = 3),
    if_neg (by omega : ¬t = 4), if_neg (by omega : ¬t = 5), if_neg (by omega : ¬t = 6),
    if_neg (by omega : ¬t = 7), if_neg (by omega : ¬t = 8), if_neg (by omega : ¬t = 9),
    if_neg (by omega : ¬t = 10), if_neg (by omega : ¬t = 11)]

/-- C10: converting a `u8` tag to `Encoding` succeeds exactly for the tags
{0, 1, 3, 4, 5, 6, 7, 8, 9, 10, 11}; tag 2 and every tag greater than 11 are
rejected. -/
theorem encoding_fromU8_domain :
    (∀ t : Nat, (Encoding.fromU8 t).isSome = true ↔
      t ∈ ([0, 1, 3, 4, 5, 6, 7, 8, 9, 10, 11] : List Nat)) ∧
    Encoding.fromU8 2 = none ∧
    (∀ t : Nat, 11 < t → Encoding.fromU8 t = none) := by
  refine ⟨fun t => ?_, by decide, fun t ht => fromU8_none_of_gt t ht⟩
  rcases Nat.lt_or_ge t 12 with h12 | h12
  · interval_cases t <;> decide
  · rw [fromU8_none_of_gt t (by omega)]
    simp only [Option.isSome_none, Bool.false_eq_true, false_iff, List.mem_cons,
      List.not_mem_nil, or_false]
    omega

theorem encoding_fromU8_domain_witness :
    11 < 12 ∧ Encoding.fromU8 12 = none :=
  ⟨by decide, encoding_fromU8_domain.2.2 12 (by decide)⟩
